import Mathlib

/-!
# Movie Watchlist API — verification of `src/index.js`

Shallow embedding of the per-user movie watchlist HTTP service from
`src/index.js`.  Pure route-handler bodies become Lean functions; the
in-memory mutable state (the `users` array with each user's `movies`
array) is threaded explicitly.  JavaScript's dynamically typed request
bodies are modelled by `JSValue` (with field absence, i.e. `undefined`,
as `Option`), JS truthiness by `truthy`, and `Number(...)` coercion of
path parameters by an `Option Int` whose `none` stands for `NaN`.

The `jsonwebtoken` library is an external collaborator, not code of this
repository; it is modelled opaquely but concretely: `jwtSign` produces a
signed string embedding payload `{id, username}`, the issue time and a
signature determined by the signing secret, and `jwtVerify` accepts
exactly the well-formed strings whose signature matches the current
secret and whose 24-hour expiry window (86400 seconds, from
`expiresIn: '24h'`) has not elapsed — which is the behaviour the route
code relies on.  The encoding of payload components is unary so that a
token provably never contains a space or a colon, mirroring real JWTs
(base64url, no spaces).
-/

namespace Watchlist

/-- A JavaScript primitive value as it can occur in a JSON request body.
`undefined` is represented by `Option.none` at the field level, not here. -/
inductive JSValue where
  | vnull : JSValue
  | vbool : Bool → JSValue
  | vnum : Int → JSValue
  | vstr : String → JSValue
deriving DecidableEq, Repr

/-- JS truthiness of a value: `null`, `false`, `0` and `""` are falsy. -/
def truthy : JSValue → Bool
  | .vnull => false
  | .vbool b => b
  | .vnum n => n != 0
  | .vstr s => s != ""

/-- Truthiness of a possibly-absent (`undefined`) value: `!x` in JS. -/
def truthyOpt : Option JSValue → Bool
  | none => false
  | some v => truthy v

/-- `String.prototype.split` on a single separator character, at the
character-list level: JS `s.split(sep)`.  `split` of a string with no
separator is the singleton of the whole string; an empty string yields
`[""]` (as in JS). -/
def splitChars (sep : Char) : List Char → List (List Char)
  | [] => [[]]
  | c :: cs =>
    if c = sep then [] :: splitChars sep cs
    else
      match splitChars sep cs with
      | [] => [[c]]
      | l :: ls => (c :: l) :: ls

/-- JS `s.split(sep)` on Lean strings. -/
def jsSplit (sep : Char) (s : String) : List String :=
  (splitChars sep s.data).map List.asString

/-- Unary encoding of a natural number used inside the modelled token:
a run of `n` letters `i`. -/
def nEnc (n : Nat) : List Char := List.replicate n 'i'

/-- Injective encoding of a string used inside the modelled token: each
character becomes a run of `u`s of length its code point, terminated by
a dash.  Uses only the characters `u` and `-`. -/
def chEnc : List Char → List Char
  | [] => []
  | c :: cs => List.replicate c.toNat 'u' ++ '-' :: chEnc cs

/-- The character content of a signed token: header, payload `id`,
payload `username`, issue time, signature. -/
def jwtSignData (id : Nat) (un : List Char) (iat : Nat) (sec : List Char) : List Char :=
  "jwt".data ++ ':' :: (nEnc id ++ ':' :: (chEnc un ++ ':' :: (nEnc iat ++ ':' :: chEnc sec)))

/-- Model of `jwt.sign({id: user.id, username: user.username}, SECRET_KEY,
{expiresIn: '24h'})`: a signed token string carrying the payload, the
issue time `iat`, and a signature determined by the signing secret. -/
def jwtSign (id : Nat) (username : String) (iat : Nat) (secret : String) : String :=
  List.asString (jwtSignData id username.data iat secret.data)

/-- Number of seconds in the `'24h'` validity window. -/
def tokenLifetime : Nat := 86400

/-- Model of `jwt.verify(token, SECRET_KEY, cb)`: succeeds with the
decoded payload's `id` exactly when the token is a well-formed signed
token, its signature matches `secret`, and `now` is before the token's
expiry time `iat + 24h` (the `jsonwebtoken` library rejects at
`now ≥ exp`).  Returns `none` for malformed tokens, wrong signatures and
expired tokens alike — the route code maps all three to one 403. -/
def jwtVerify (t : String) (secret : String) (now : Nat) : Option Nat :=
  match splitChars ':' t.data with
  | [j, idSeg, _unSeg, iatSeg, secSeg] =>
    if j = "jwt".data ∧ idSeg.all (· = 'i') ∧ iatSeg.all (· = 'i')
        ∧ secSeg = chEnc secret.data ∧ now < iatSeg.length + tokenLifetime
    then some idSeg.length
    else none
  | _ => none

/-- A movie record, `{ id, movietitle, language, watched }`
(`src/index.js` lines 121–126).  Field values other than the generated
numeric `id` come from JSON bodies and are dynamically typed. -/
structure Movie where
  id : Nat
  movietitle : JSValue
  language : JSValue
  watched : JSValue
deriving DecidableEq, Repr

/-- A user of the in-memory `users` table (`src/index.js` lines 31–34). -/
structure User where
  id : Nat
  username : String
  password : String
  movies : List Movie
deriving DecidableEq, Repr

/-- The in-memory "database": the `users` array. -/
abbrev DB := List User

/-- The pre-defined users, movies starting empty (`src/index.js` 31–34). -/
def initialUsers : DB :=
  [⟨1, "Ashwanth", "kok123", []⟩,
   ⟨2, "alice", "123", []⟩]

/-- The body of an HTTP JSON response, as the handlers produce it. -/
inductive RespBody where
  | empty : RespBody
  | msg : String → RespBody
  | movie : Movie → RespBody
  | movies : List Movie → RespBody
  | token : String → RespBody
deriving DecidableEq, Repr

/-- An HTTP response: status code and JSON body. -/
structure Resp where
  status : Nat
  body : RespBody
deriving DecidableEq, Repr

/-- `generateId()` (`src/index.js` 39–42): `Date.now() + Math.floor(Math.random()*1000)`.
The clock reading and the random draw are inputs of the model; the
random perturbation satisfies `rand < 1000`. -/
def generateId (now rand : Nat) : Nat := now + rand

/-! ## Login and the access guard -/

/-- The JSON body of `POST /login`: `{ username, password }`, each
possibly absent. -/
structure LoginBody where
  username : Option JSValue
  password : Option JSValue
deriving DecidableEq, Repr

/-- `app.post('/login')` (`src/index.js` 50–61).  `iat` is the clock
reading at issuance, `secret` the process's `SECRET_KEY`.  `users.find`
compares the stored strings to the body values with `===`. -/
def login (db : DB) (body : LoginBody) (iat : Nat) (secret : String) : Resp :=
  if !truthyOpt body.username || !truthyOpt body.password then
    ⟨400, .msg "username and password required"⟩
  else
    match db.find? (fun u =>
        body.username == some (JSValue.vstr u.username)
          && body.password == some (JSValue.vstr u.password)) with
    | none => ⟨401, .msg "Invalid credentials"⟩
    | some u => ⟨200, .token (jwtSign u.id u.username iat secret)⟩

/-- `const token = authHeader && authHeader.split(' ')[1]` followed by
the `if (!token)` falsiness test (`src/index.js` 68–70): the token is
the second space-separated segment of the header; an absent header, a
falsy (empty) header and a falsy (empty) extracted segment all leave no
token. -/
def extractToken (authHeader : Option String) : Option String :=
  match authHeader with
  | none => none
  | some h =>
    if h = "" then none
    else
      match (jsSplit ' ' h).get? 1 with
      | none => none
      | some "" => none
      | some t => some t

/-- Outcome of the `authenticateToken` middleware: either a rejection
response, or the resolved user attached to the request as `req.user`. -/
inductive AuthResult where
  | reject : Nat → String → AuthResult
  | ok : User → AuthResult
deriving DecidableEq, Repr

/-- `authenticateToken` (`src/index.js` 67–82): extract the token from
the `Authorization` header, verify it, and resolve the decoded `id`
against the `users` table. -/
def authenticateToken (authHeader : Option String) (secret : String)
    (now : Nat) (db : DB) : AuthResult :=
  match extractToken authHeader with
  | none => .reject 401 "Missing token"
  | some token =>
    match jwtVerify token secret now with
    | none => .reject 403 "Invalid or expired token"
    | some decodedId =>
      match db.find? (fun u => u.id == decodedId) with
      | none => .reject 401 "User not found"
      | some u => .ok u

/-- A protected route: the guard runs first, and only on success does
the route handler run (with `req.user` bound to the resolved user). -/
def protect (authHeader : Option String) (secret : String) (now : Nat)
    (db : DB) (handler : User → DB → Resp × DB) : Resp × DB :=
  match authenticateToken authHeader secret now db with
  | .reject s m => (⟨s, .msg m⟩, db)
  | .ok u => handler u db

/-! ## The movie CRUD handlers

Each handler operates on `req.user.movies`, the authenticated user's
movie list; its effect on that list is made explicit by returning the
new list alongside the response.  `Number(req.params.id)` is modelled as
an `Option Int` where `none` stands for `NaN` (non-numeric path ids);
`NaN === x` is false for every `x`, and `Number(m.id)` of a stored
numeric id is the id itself. -/

/-- `Number(req.params.id) === Number(m.id)` for a coerced path id. -/
def matchesId (pid : Option Int) (m : Movie) : Bool :=
  pid == some (m.id : Int)

/-- The JSON body of the movie routes: `{ movietitle, language, watched }`,
any subset present. -/
structure MovieBody where
  movietitle : Option JSValue
  language : Option JSValue
  watched : Option JSValue
deriving DecidableEq, Repr

/-- `app.get('/movies')` (`src/index.js` 98–109): status-filtered read,
`status` drawn from the query string (`none` when absent). -/
def getMoviesH (status : Option String) (ms : List Movie) : Resp :=
  let movies :=
    if status = some "watched" then
      ms.filter (fun m => m.watched == JSValue.vbool true)
    else if status = some "unwatched" then
      ms.filter (fun m => m.watched == JSValue.vbool false)
    else ms
  ⟨200, .movies movies⟩

/-- `app.post('/movies')` (`src/index.js` 114–130): validate the body,
generate an id from the clock and the random draw, coerce `watched`
(`watched === undefined ? false : !!watched`), and push. -/
def postMoviesH (body : MovieBody) (now rand : Nat) (ms : List Movie) :
    Resp × List Movie :=
  if !truthyOpt body.movietitle || !truthyOpt body.language then
    (⟨400, .msg "movietitle and language are required"⟩, ms)
  else
    match body.movietitle, body.language with
    | some mt, some lang =>
      let newMovie : Movie :=
        { id := generateId now rand
          movietitle := mt
          language := lang
          watched := .vbool (match body.watched with
            | none => false
            | some w => truthy w) }
      (⟨201, .movie newMovie⟩, ms ++ [newMovie])
    | _, _ => (⟨400, .msg "movietitle and language are required"⟩, ms)

/-- `app.get('/movies/:id')` (`src/index.js` 134–139). -/
def getMovieH (pid : Option Int) (ms : List Movie) : Resp :=
  match ms.find? (matchesId pid) with
  | none => ⟨404, .msg "Movie not found"⟩
  | some movie => ⟨200, .movie movie⟩

/-- In-place mutation of the first list element satisfying `p`, as JS
`find` + field assignment does on the array. -/
def updateFirst (p : Movie → Bool) (f : Movie → Movie) :
    List Movie → List Movie
  | [] => []
  | m :: ms => if p m then f m :: ms else m :: updateFirst p f ms

/-- The field assignments of `PUT` (`src/index.js` 153–155): all three
fields replaced, `watched` coerced with `!!`. -/
def putFields (mt lang w : JSValue) (m : Movie) : Movie :=
  { m with movietitle := mt, language := lang, watched := .vbool (truthy w) }

/-- `app.put('/movies/:id')` (`src/index.js` 143–158): 404 when no movie
matches, then 400 unless all three fields are present, else full
replacement of the found movie's fields. -/
def putMovieH (pid : Option Int) (body : MovieBody) (ms : List Movie) :
    Resp × List Movie :=
  match ms.find? (matchesId pid) with
  | none => (⟨404, .msg "Movie not found"⟩, ms)
  | some movie =>
    match body.movietitle, body.language, body.watched with
    | some mt, some lang, some w =>
      (⟨200, .movie (putFields mt lang w movie)⟩,
        updateFirst (matchesId pid) (putFields mt lang w) ms)
    | _, _, _ =>
      (⟨400, .msg "movietitle, language and watched are required for full update"⟩, ms)

/-- The field assignments of `PATCH` (`src/index.js` 168–170): each field
assigned only when present in the body, `watched` coerced with `!!`. -/
def patchFields (body : MovieBody) (m : Movie) : Movie :=
  { m with
    movietitle := match body.movietitle with
      | none => m.movietitle
      | some mt => mt
    language := match body.language with
      | none => m.language
      | some lang => lang
    watched := match body.watched with
      | none => m.watched
      | some w => .vbool (truthy w) }

/-- `app.patch('/movies/:id')` (`src/index.js` 162–173): 404 when no
movie matches, else apply exactly the present fields to the found movie. -/
def patchMovieH (pid : Option Int) (body : MovieBody) (ms : List Movie) :
    Resp × List Movie :=
  match ms.find? (matchesId pid) with
  | none => (⟨404, .msg "Movie not found"⟩, ms)
  | some movie =>
    (⟨200, .movie (patchFields body movie)⟩,
      updateFirst (matchesId pid) (patchFields body) ms)

/-- `app.delete('/movies/:id')` (`src/index.js` 177–185): filter out every
matching movie; 404 if the length did not change, else 204 No Content. -/
def deleteMovieH (pid : Option Int) (ms : List Movie) : Resp × List Movie :=
  let filtered := ms.filter (fun m => !matchesId pid m)
  if ms.length = filtered.length then
    (⟨404, .msg "Movie not found"⟩, filtered)
  else
    (⟨204, .empty⟩, filtered)

/-! ## Lifting to the shared `users` table

`req.user` is the object `users.find(u => u.id === decoded.id)` returns,
so a handler's writes to `req.user.movies` land on the first user of the
table with the authenticated id. -/

/-- The movie list the handlers see: `req.user.movies || []` for the
first user with the given id (`[]` if, impossibly after the guard, none
exists). -/
def moviesOf (uid : Nat) (db : DB) : List Movie :=
  match db.find? (fun u => u.id == uid) with
  | none => []
  | some u => u.movies

/-- Writing the handler's resulting movie list back through the
`req.user` reference: the first user with the given id is updated. -/
def setMovies (uid : Nat) (ms : List Movie) : DB → DB
  | [] => []
  | u :: us =>
    if u.id == uid then { u with movies := ms } :: us
    else u :: setMovies uid ms us

/-- One authenticated request to a movie route, after the guard has
resolved the user: the route, its parameters, and the clock/random
inputs of `generateId` for a create. -/
inductive Op where
  | list : Option String → Op
  | create : MovieBody → Nat → Nat → Op
  | get : Option Int → Op
  | put : Option Int → MovieBody → Op
  | patch : Option Int → MovieBody → Op
  | delete : Option Int → Op
deriving DecidableEq, Repr

/-- Run one authenticated movie request as the user with id `uid`:
response plus the table after the handler's writes. -/
def runOp (uid : Nat) (op : Op) (db : DB) : Resp × DB :=
  match op with
  | .list status => (getMoviesH status (moviesOf uid db), db)
  | .create body now rand =>
    let (r, ms') := postMoviesH body now rand (moviesOf uid db)
    (r, setMovies uid ms' db)
  | .get pid => (getMovieH pid (moviesOf uid db), db)
  | .put pid body =>
    let (r, ms') := putMovieH pid body (moviesOf uid db)
    (r, setMovies uid ms' db)
  | .patch pid body =>
    let (r, ms') := patchMovieH pid body (moviesOf uid db)
    (r, setMovies uid ms' db)
  | .delete pid =>
    let (r, ms') := deleteMovieH pid (moviesOf uid db)
    (r, setMovies uid ms' db)

/-- The state after one authenticated movie request. -/
def applyOp (uid : Nat) (op : Op) (db : DB) : DB := (runOp uid op db).2

/-- The state after a sequence of authenticated movie requests, each
tagged with the id of the user it is authenticated as. -/
def applyOps : List (Nat × Op) → DB → DB
  | [], db => db
  | (uid, op) :: rest, db => applyOps rest (applyOp uid op db)

/-- The `watched` field of every stored movie is a boolean. -/
def watchedInv (db : DB) : Prop :=
  ∀ u ∈ db, ∀ m ∈ u.movies, ∃ b, m.watched = JSValue.vbool b

/-- Movie ids are pairwise distinct within each user's collection. -/
def idsNodupInv (db : DB) : Prop :=
  ∀ u ∈ db, (u.movies.map Movie.id).Nodup

/-! ## Splitting and token lemmas -/

theorem splitChars_of_not_mem {sep : Char} {l : List Char} (h : sep ∉ l) :
    splitChars sep l = [l] := by
  induction l with
  | nil => rfl
  | cons c cs ih =>
    have hc : ¬ c = sep := fun e => h (e ▸ List.mem_cons_self c cs)
    have hcs : sep ∉ cs := fun e => h (List.mem_cons_of_mem c e)
    simp [splitChars, hc, ih hcs]

theorem splitChars_append {sep : Char} {l r : List Char} (h : sep ∉ l) :
    splitChars sep (l ++ sep :: r) = l :: splitChars sep r := by
  induction l with
  | nil => simp [splitChars]
  | cons c cs ih =>
    have hc : ¬ c = sep := fun e => h (e ▸ List.mem_cons_self c cs)
    have hcs : sep ∉ cs := fun e => h (List.mem_cons_of_mem c e)
    simp [splitChars, hc, ih hcs]

theorem mem_nEnc {c : Char} {n : Nat} (h : c ∈ nEnc n) : c = 'i' :=
  List.eq_of_mem_replicate h

theorem mem_chEnc {c : Char} : ∀ {l : List Char}, c ∈ chEnc l → c = 'u' ∨ c = '-' := by
  intro l
  induction l with
  | nil => intro h; exact absurd h (List.not_mem_nil c)
  | cons d ds ih =>
    intro h
    rcases List.mem_append.1 h with h1 | h2
    · exact Or.inl (List.eq_of_mem_replicate h1)
    · rcases List.mem_cons.1 h2 with h3 | h4
      · exact Or.inr h3
      · exact ih h4

theorem space_not_mem_jwtSignData (id iat : Nat) (un sec : List Char) :
    ' ' ∉ jwtSignData id un iat sec := by
  intro h
  unfold jwtSignData at h
  simp only [List.mem_append, List.mem_cons] at h
  rcases h with h | h | h | h | h | h | h | h | h
  · revert h; decide
  · exact absurd h (by decide)
  · exact absurd (mem_nEnc h) (by decide)
  · exact absurd h (by decide)
  · rcases mem_chEnc h with h | h <;> revert h <;> decide
  · exact absurd h (by decide)
  · exact absurd (mem_nEnc h) (by decide)
  · exact absurd h (by decide)
  · rcases mem_chEnc h with h | h <;> revert h <;> decide

theorem splitChars_colon_jwtSignData (id iat : Nat) (un sec : List Char) :
    splitChars ':' (jwtSignData id un iat sec)
      = ["jwt".data, nEnc id, chEnc un, nEnc iat, chEnc sec] := by
  have hjwt : ':' ∉ "jwt".data := by decide
  have hn : ∀ n : Nat, ':' ∉ nEnc n := fun n h => absurd (mem_nEnc h) (by decide)
  have hch : ∀ l : List Char, ':' ∉ chEnc l := fun l h => by
    rcases mem_chEnc h with h | h <;> revert h <;> decide
  unfold jwtSignData
  rw [splitChars_append hjwt, splitChars_append (hn id),
    splitChars_append (hch un), splitChars_append (hn iat),
    splitChars_of_not_mem (hch sec)]

theorem replicate_dash_inj : ∀ {m n : Nat} {xs ys : List Char},
    List.replicate m 'u' ++ '-' :: xs = List.replicate n 'u' ++ '-' :: ys →
    m = n ∧ xs = ys := by
  intro m
  induction m with
  | zero =>
    intro n xs ys h
    cases n with
    | zero => simpa using h
    | succ k => simp [List.replicate_succ] at h
  | succ k ih =>
    intro n xs ys h
    cases n with
    | zero => simp [List.replicate_succ] at h
    | succ j =>
      rw [List.replicate_succ, List.replicate_succ] at h
      simp only [List.cons_append, List.cons.injEq, true_and] at h
      obtain ⟨h1, h2⟩ := ih h
      exact ⟨by omega, h2⟩

theorem chEnc_inj : ∀ {l1 l2 : List Char}, chEnc l1 = chEnc l2 → l1 = l2 := by
  intro l1
  induction l1 with
  | nil =>
    intro l2 h
    cases l2 with
    | nil => rfl
    | cons d ds =>
      exfalso
      have hlen := congrArg List.length h
      simp [chEnc] at hlen
      omega
  | cons c cs ih =>
    intro l2 h
    cases l2 with
    | nil =>
      exfalso
      have hlen := congrArg List.length h
      simp [chEnc] at hlen
    | cons d ds =>
      simp only [chEnc] at h
      obtain ⟨hm, hxs⟩ := replicate_dash_inj h
      have hc : c = d := by
        have := congrArg Char.ofNat hm
        rwa [Char.ofNat_toNat, Char.ofNat_toNat] at this
      rw [hc, ih hxs]

theorem nEnc_all_i (n : Nat) : (nEnc n).all (· = 'i') = true := by
  simp only [List.all_eq_true, decide_eq_true_eq]
  exact fun c h => mem_nEnc h

/-- Sign/verify round trip: a signed token verifies exactly when it was
signed with the current secret and its 24-hour window has not elapsed,
and then decodes to the signed payload's id. -/
theorem jwtVerify_jwtSign (id iat now : Nat) (un sec secret : String) :
    jwtVerify (jwtSign id un iat sec) secret now
      = if sec = secret ∧ now < iat + tokenLifetime then some id else none := by
  have hdata : (jwtSign id un iat sec).data = jwtSignData id un.data iat sec.data := rfl
  have hlen : ∀ n : Nat, (nEnc n).length = n := fun n => by simp [nEnc]
  have hiff : chEnc sec.data = chEnc secret.data ↔ sec = secret :=
    ⟨fun h => String.ext (chEnc_inj h), fun h => by rw [h]⟩
  unfold jwtVerify
  rw [hdata, splitChars_colon_jwtSignData]
  simp only [hlen, nEnc_all_i, hiff]
  simp

theorem jsSplit_scheme (w t : String) (hw : ' ' ∉ w.data) :
    jsSplit ' ' (w ++ " " ++ t) = w :: jsSplit ' ' t := by
  unfold jsSplit
  have hd : (w ++ " " ++ t).data = w.data ++ ' ' :: t.data := by
    rw [String.data_append, String.data_append, List.append_assoc]
    rfl
  rw [hd, splitChars_append hw]
  rfl

theorem append_space_ne_empty (w t : String) : w ++ " " ++ t ≠ "" := by
  intro he
  have hd := congrArg String.data he
  rw [String.data_append, String.data_append] at hd
  simp at hd

/-- A header with no space yields no token: `split(' ')[1]` is
`undefined`. -/
theorem extractToken_no_space {h : String} (hs : ' ' ∉ h.data) :
    extractToken (some h) = none := by
  simp only [extractToken]
  by_cases he : h = ""
  · rw [if_pos he]
  · rw [if_neg he]
    have hsp : jsSplit ' ' h = [h] := by
      unfold jsSplit
      rw [splitChars_of_not_mem hs]
      rfl
    rw [hsp]
    rfl

/-- The scheme word of the header is never inspected: any space-free
scheme extracts the same token as `Bearer`. -/
theorem extractToken_scheme (w t : String) (hw : ' ' ∉ w.data) :
    extractToken (some (w ++ " " ++ t)) = extractToken (some ("Bearer " ++ t)) := by
  have e : "Bearer " ++ t = "Bearer" ++ " " ++ t := by
    apply String.ext
    rw [String.data_append, String.data_append, String.data_append, List.append_assoc]
    rfl
  simp only [extractToken]
  rw [e, if_neg (append_space_ne_empty w t), if_neg (append_space_ne_empty "Bearer" t),
    jsSplit_scheme w t hw, jsSplit_scheme "Bearer" t (by decide)]
  rfl

/-- A space-free, non-empty token placed after `Bearer ` is extracted
verbatim. -/
theorem extractToken_bearer {t : String} (ht : ' ' ∉ t.data) (hne : t ≠ "") :
    extractToken (some ("Bearer " ++ t)) = some t := by
  have e : "Bearer " ++ t = "Bearer" ++ " " ++ t := by
    apply String.ext
    rw [String.data_append, String.data_append, String.data_append, List.append_assoc]
    rfl
  simp only [extractToken]
  rw [e, if_neg (append_space_ne_empty "Bearer" t), jsSplit_scheme "Bearer" t (by decide)]
  have hsp : jsSplit ' ' t = [t] := by
    unfold jsSplit
    rw [splitChars_of_not_mem ht]
    rfl
  rw [hsp]
  simp [List.get?, hne]

/-- A signed token contains no space, whatever its payload and secret. -/
theorem jwtSign_no_space (id iat : Nat) (un sec : String) :
    ' ' ∉ (jwtSign id un iat sec).data :=
  space_not_mem_jwtSignData id iat un.data sec.data

theorem jwtSign_ne_empty (id iat : Nat) (un sec : String) :
    jwtSign id un iat sec ≠ "" := by
  intro he
  have hd := congrArg String.data he
  have : (jwtSign id un iat sec).data = jwtSignData id un.data iat sec.data := rfl
  rw [this] at hd
  unfold jwtSignData at hd
  simp at hd

/-- A string that does not split on colons into exactly the five token
segments never verifies, whatever the secret and clock. -/
theorem jwtVerify_not_five {t secret : String} {now : Nat}
    (h : (splitChars ':' t.data).length ≠ 5) : jwtVerify t secret now = none := by
  unfold jwtVerify
  rcases hsp : splitChars ':' t.data with _ | ⟨j, _ | ⟨a, _ | ⟨b, _ | ⟨c, _ | ⟨d, _ | ⟨e, rest⟩⟩⟩⟩⟩⟩ <;>
    first
    | rfl
    | exact absurd (by rw [hsp]; rfl) h

/-! ## List helper lemmas -/

theorem find?_middle {p : Movie → Bool} {pre post : List Movie} {m : Movie}
    (hpre : ∀ m' ∈ pre, ¬ p m') (hm : p m) :
    (pre ++ m :: post).find? p = some m := by
  induction pre with
  | nil => simp [List.find?_cons_of_pos, hm]
  | cons a as ih =>
    have ha : ¬ p a := hpre a (List.mem_cons_self a as)
    rw [List.cons_append, List.find?_cons_of_neg _ (by simpa using ha)]
    exact ih fun m' h => hpre m' (List.mem_cons_of_mem a h)

theorem updateFirst_middle {p : Movie → Bool} {f : Movie → Movie} {pre post : List Movie}
    {m : Movie} (hpre : ∀ m' ∈ pre, ¬ p m') (hm : p m) :
    updateFirst p f (pre ++ m :: post) = pre ++ f m :: post := by
  induction pre with
  | nil => simp [updateFirst, hm]
  | cons a as ih =>
    have ha : ¬ p a := hpre a (List.mem_cons_self a as)
    simp only [List.cons_append, updateFirst, if_neg ha, List.append_eq]
    rw [ih fun m' h => hpre m' (List.mem_cons_of_mem a h)]

/-! ## Claim theorems -/

/-- C5: `GET /movies` with no `status` query returns the full stored
sequence; with `status=watched` exactly the entries whose `watched`
field is `true`; with `status=unwatched` exactly those whose `watched`
field is `false`; with any other value the full sequence; and every
result preserves the stored relative order (it is a sublist of the
stored sequence). -/
theorem C5_status_filter (ms : List Movie) :
    getMoviesH none ms = ⟨200, .movies ms⟩
    ∧ getMoviesH (some "watched") ms
        = ⟨200, .movies (ms.filter (fun m => m.watched == JSValue.vbool true))⟩
    ∧ getMoviesH (some "unwatched") ms
        = ⟨200, .movies (ms.filter (fun m => m.watched == JSValue.vbool false))⟩
    ∧ (∀ s : String, s ≠ "watched" → s ≠ "unwatched" →
        getMoviesH (some s) ms = ⟨200, .movies ms⟩)
    ∧ (ms.filter (fun m => m.watched == JSValue.vbool true)).Sublist ms
    ∧ (ms.filter (fun m => m.watched == JSValue.vbool false)).Sublist ms := by
  refine ⟨by simp [getMoviesH], by simp [getMoviesH], by simp [getMoviesH], ?_,
    List.filter_sublist ms, List.filter_sublist ms⟩
  intro s h1 h2
  simp [getMoviesH, h1, h2]

/-- Witness for C5 at a concrete list and the unrecognized filter
value `"all"`. -/
theorem C5_status_filter_witness :
    getMoviesH (some "all")
        [⟨1, .vstr "Inception", .vstr "English", .vbool true⟩]
      = ⟨200, .movies [⟨1, .vstr "Inception", .vstr "English", .vbool true⟩]⟩ :=
  (C5_status_filter [⟨1, .vstr "Inception", .vstr "English", .vbool true⟩]).2.2.2.1
    "all" (by decide) (by decide)

/-- C8: a non-numeric path id coerces to `NaN`, which `===`-matches no
stored id, so `GET`, `PUT`, `PATCH` and `DELETE` on `/movies/:id` all
answer 404 Not Found and leave the collection unchanged. -/
theorem C8_nonnumeric_id (ms : List Movie) (body : MovieBody) :
    getMovieH none ms = ⟨404, .msg "Movie not found"⟩
    ∧ putMovieH none body ms = (⟨404, .msg "Movie not found"⟩, ms)
    ∧ patchMovieH none body ms = (⟨404, .msg "Movie not found"⟩, ms)
    ∧ deleteMovieH none ms = (⟨404, .msg "Movie not found"⟩, ms) := by
  have hfind : ms.find? (matchesId none) = none := by
    rw [List.find?_eq_none]
    intro m _
    simp [matchesId]
  have hfilter : ms.filter (fun m => !matchesId none m) = ms := by
    rw [List.filter_eq_self]
    intro m _
    simp [matchesId]
  refine ⟨?_, ?_, ?_, ?_⟩
  · simp [getMovieH, hfind]
  · simp [putMovieH, hfind]
  · simp [patchMovieH, hfind]
  · simp [deleteMovieH, hfilter]

/-- C6: `PATCH /movies/:id` on the first stored movie matching an
existing id updates exactly the fields present in the body — each absent
field keeps its old value, each present field takes the body's value
(`watched` coerced to a boolean) — returns the updated movie with
status 200, and leaves every other movie, the order and the length of
the collection unchanged; an entirely empty patch body is a 200 no-op. -/
theorem C6_patch_fields (pid : Option Int) (body : MovieBody) (pre post : List Movie)
    (m : Movie) (hpre : ∀ m' ∈ pre, ¬ matchesId pid m') (hm : matchesId pid m) :
    patchMovieH pid body (pre ++ m :: post)
        = (⟨200, .movie (patchFields body m)⟩, pre ++ patchFields body m :: post)
    ∧ (patchFields body m).id = m.id
    ∧ (body.movietitle = none → (patchFields body m).movietitle = m.movietitle)
    ∧ (∀ v, body.movietitle = some v → (patchFields body m).movietitle = v)
    ∧ (body.language = none → (patchFields body m).language = m.language)
    ∧ (∀ v, body.language = some v → (patchFields body m).language = v)
    ∧ (body.watched = none → (patchFields body m).watched = m.watched)
    ∧ (∀ v, body.watched = some v →
        (patchFields body m).watched = JSValue.vbool (truthy v))
    ∧ (body = ⟨none, none, none⟩ →
        patchMovieH pid body (pre ++ m :: post)
          = (⟨200, .movie m⟩, pre ++ m :: post)) := by
  have hmain : patchMovieH pid body (pre ++ m :: post)
      = (⟨200, .movie (patchFields body m)⟩, pre ++ patchFields body m :: post) := by
    unfold patchMovieH
    rw [find?_middle hpre hm, updateFirst_middle hpre hm]
  refine ⟨hmain, by simp [patchFields], ?_, ?_, ?_, ?_, ?_, ?_, ?_⟩
  · intro h; simp [patchFields, h]
  · intro v h; simp [patchFields, h]
  · intro h; simp [patchFields, h]
  · intro v h; simp [patchFields, h]
  · intro h; simp [patchFields, h]
  · intro v h; simp [patchFields, h]
  · intro h
    subst h
    have hid : patchFields ⟨none, none, none⟩ m = m := by
      simp [patchFields]
    rw [hmain, hid]

/-- Witness for C6: patching `{watched: true}` onto a one-movie
collection flips only `watched`. -/
theorem C6_patch_fields_witness :
    patchMovieH (some 1) ⟨none, none, some (.vbool true)⟩
        [⟨1, .vstr "Inception", .vstr "English", .vbool false⟩]
      = (⟨200, .movie ⟨1, .vstr "Inception", .vstr "English", .vbool true⟩⟩,
        [⟨1, .vstr "Inception", .vstr "English", .vbool true⟩]) := by
  have h := (C6_patch_fields (some 1) ⟨none, none, some (.vbool true)⟩ [] []
    ⟨1, .vstr "Inception", .vstr "English", .vbool false⟩
    (by intro m' h'; exact absurd h' (List.not_mem_nil m')) (by decide)).1
  simpa using h

/-- C7: `DELETE /movies/:id` with an id present in the collection
removes every entry carrying it (so a subsequent `GET /movies/:id` for
that id answers 404) and responds 204 with an empty body; with an id not
present it responds 404 and leaves the collection unchanged. -/
theorem C7_delete (pid : Option Int) (ms : List Movie) :
    ((∃ m ∈ ms, matchesId pid m) →
      deleteMovieH pid ms = (⟨204, .empty⟩, ms.filter (fun m => !matchesId pid m))
      ∧ getMovieH pid (deleteMovieH pid ms).2 = ⟨404, .msg "Movie not found"⟩)
    ∧ ((∀ m ∈ ms, ¬ matchesId pid m) →
      deleteMovieH pid ms = (⟨404, .msg "Movie not found"⟩, ms)) := by
  constructor
  · rintro ⟨m, hmem, hmatch⟩
    have hlt : (ms.filter (fun m => !matchesId pid m)).length < ms.length := by
      rw [List.length_filter_lt_length_iff_exists]
      exact ⟨m, hmem, by simp [hmatch]⟩
    have hne : ¬ ms.length = (ms.filter (fun m => !matchesId pid m)).length :=
      fun e => absurd hlt (by omega)
    have hdel : deleteMovieH pid ms
        = (⟨204, .empty⟩, ms.filter (fun m => !matchesId pid m)) := by
      unfold deleteMovieH
      rw [if_neg hne]
    refine ⟨hdel, ?_⟩
    rw [hdel]
    have hfind : (ms.filter (fun m => !matchesId pid m)).find? (matchesId pid) = none := by
      rw [List.find?_eq_none]
      intro x hx
      have := (List.mem_filter.1 hx).2
      simp at this
      simp [this]
    simp [getMovieH, hfind]
  · intro hnone
    have hfilter : ms.filter (fun m => !matchesId pid m) = ms := by
      rw [List.filter_eq_self]
      intro m hmem
      simpa using hnone m hmem
    unfold deleteMovieH
    rw [hfilter]
    simp

/-- C10: the access guard takes the token to be the second
space-separated segment of the `Authorization` header and never
inspects the scheme word: a header without a space (such as a bare
token) leaves no token and is rejected 401 Missing token, while any
space-free scheme word followed by a token is treated exactly as
`Bearer` followed by that token. -/
theorem C10_scheme_ignored :
    (∀ (h : String), ' ' ∉ h.data → ∀ (secret : String) (now : Nat) (db : DB),
      authenticateToken (some h) secret now db = .reject 401 "Missing token")
    ∧ (∀ (w t secret : String) (now : Nat) (db : DB), ' ' ∉ w.data →
      authenticateToken (some (w ++ " " ++ t)) secret now db
        = authenticateToken (some ("Bearer " ++ t)) secret now db) := by
  constructor
  · intro h hs secret now db
    unfold authenticateToken
    rw [extractToken_no_space hs]
  · intro w t secret now db hw
    unfold authenticateToken
    rw [extractToken_scheme w t hw]

/-- Witness for C10: a bare token header is rejected as missing, and a
`Basic`-scheme header behaves exactly like the `Bearer` one. -/
theorem C10_scheme_ignored_witness :
    authenticateToken (some "raw-token") "s" 0 initialUsers
        = .reject 401 "Missing token"
    ∧ authenticateToken (some ("Basic" ++ " " ++ jwtSign 2 "alice" 0 "s")) "s" 100
          initialUsers
        = authenticateToken (some ("Bearer " ++ jwtSign 2 "alice" 0 "s")) "s" 100
          initialUsers :=
  ⟨C10_scheme_ignored.1 "raw-token" (by decide) "s" 0 initialUsers,
    C10_scheme_ignored.2 "Basic" (jwtSign 2 "alice" 0 "s") "s" 100 initialUsers
      (by decide)⟩

/-- C2: on every protected route, whatever the handler: a request with
no `Authorization` header is rejected 401 before the handler runs; a
malformed token, a token signed with a different secret, and an expired
token are each rejected 403; and a token that verifies but whose
embedded id matches no user in the store is rejected 401. -/
theorem C2_guard_errors (secret : String) (now : Nat) (db : DB) :
    (∀ handler, protect none secret now db handler
        = (⟨401, .msg "Missing token"⟩, db))
    ∧ (∀ t : String, ' ' ∉ t.data → t ≠ "" → (splitChars ':' t.data).length ≠ 5 →
        ∀ handler, protect (some ("Bearer " ++ t)) secret now db handler
          = (⟨403, .msg "Invalid or expired token"⟩, db))
    ∧ (∀ (id iat : Nat) (un s : String), s ≠ secret →
        ∀ handler, protect (some ("Bearer " ++ jwtSign id un iat s)) secret now db handler
          = (⟨403, .msg "Invalid or expired token"⟩, db))
    ∧ (∀ (id iat : Nat) (un : String), iat + tokenLifetime ≤ now →
        ∀ handler, protect (some ("Bearer " ++ jwtSign id un iat secret)) secret now db
            handler
          = (⟨403, .msg "Invalid or expired token"⟩, db))
    ∧ (∀ (id iat : Nat) (un : String), now < iat + tokenLifetime →
        (∀ u ∈ db, u.id ≠ id) →
        ∀ handler, protect (some ("Bearer " ++ jwtSign id un iat secret)) secret now db
            handler
          = (⟨401, .msg "User not found"⟩, db)) := by
  refine ⟨fun handler => rfl, ?_, ?_, ?_, ?_⟩
  · intro t hsp hne h5 handler
    unfold protect authenticateToken
    simp only [extractToken_bearer hsp hne]
    rw [jwtVerify_not_five h5]
  · intro id iat un s hs handler
    unfold protect authenticateToken
    simp only [extractToken_bearer (jwtSign_no_space id iat un s)
      (jwtSign_ne_empty id iat un s), jwtVerify_jwtSign]
    rw [if_neg (fun hc => hs hc.1)]
  · intro id iat un hexp handler
    unfold protect authenticateToken
    simp only [extractToken_bearer (jwtSign_no_space id iat un secret)
      (jwtSign_ne_empty id iat un secret), jwtVerify_jwtSign]
    rw [if_neg (fun hc => absurd hc.2 (by omega))]
  · intro id iat un hnow hu handler
    unfold protect authenticateToken
    have hfind : db.find? (fun u => u.id == id) = none := by
      rw [List.find?_eq_none]
      intro u hmem
      simpa using hu u hmem
    simp only [extractToken_bearer (jwtSign_no_space id iat un secret)
      (jwtSign_ne_empty id iat un secret), jwtVerify_jwtSign]
    rw [if_pos ⟨trivial, hnow⟩]
    simp only [hfind]

/-- Witness for C2 at concrete inputs: missing header, malformed token,
wrong secret, expired token, and a token for an id with no user. -/
theorem C2_guard_errors_witness :
    (protect none "s" 0 initialUsers (fun _ db => (⟨200, .empty⟩, db))
        = (⟨401, .msg "Missing token"⟩, initialUsers))
    ∧ (protect (some ("Bearer " ++ "garbage")) "s" 0 initialUsers
          (fun _ db => (⟨200, .empty⟩, db))
        = (⟨403, .msg "Invalid or expired token"⟩, initialUsers))
    ∧ (protect (some ("Bearer " ++ jwtSign 1 "Ashwanth" 0 "t")) "s" 0 initialUsers
          (fun _ db => (⟨200, .empty⟩, db))
        = (⟨403, .msg "Invalid or expired token"⟩, initialUsers))
    ∧ (protect (some ("Bearer " ++ jwtSign 1 "Ashwanth" 0 "s")) "s" 86400 initialUsers
          (fun _ db => (⟨200, .empty⟩, db))
        = (⟨403, .msg "Invalid or expired token"⟩, initialUsers))
    ∧ (protect (some ("Bearer " ++ jwtSign 3 "ghost" 0 "s")) "s" 100 initialUsers
          (fun _ db => (⟨200, .empty⟩, db))
        = (⟨401, .msg "User not found"⟩, initialUsers)) :=
  ⟨(C2_guard_errors "s" 0 initialUsers).1 _,
    (C2_guard_errors "s" 0 initialUsers).2.1 "garbage" (by decide) (by decide)
      (by decide) _,
    (C2_guard_errors "s" 0 initialUsers).2.2.1 1 0 "Ashwanth" "t" (by decide) _,
    (C2_guard_errors "s" 86400 initialUsers).2.2.2.1 1 0 "Ashwanth" (by decide) _,
    (C2_guard_errors "s" 100 initialUsers).2.2.2.2 3 0 "ghost" (by decide)
      (by decide) _⟩

/-- C1: for each user of the credential store, logging in with that
user's exact username and password answers 200 with a signed token;
presenting that token as `Authorization: Bearer <token>` within the
24-hour window makes the guard resolve exactly that user, and presenting
it once the window has elapsed is rejected 403. -/
theorem C1_login_roundtrip :
    ∀ u ∈ initialUsers, ∀ (iat now : Nat) (secret : String),
      login initialUsers ⟨some (.vstr u.username), some (.vstr u.password)⟩ iat secret
        = ⟨200, .token (jwtSign u.id u.username iat secret)⟩
      ∧ (now < iat + tokenLifetime →
          authenticateToken (some ("Bearer " ++ jwtSign u.id u.username iat secret))
            secret now initialUsers = .ok u)
      ∧ (iat + tokenLifetime ≤ now →
          authenticateToken (some ("Bearer " ++ jwtSign u.id u.username iat secret))
            secret now initialUsers = .reject 403 "Invalid or expired token") := by
  intro u hu iat now secret
  have hok : ∀ hnow : now < iat + tokenLifetime,
      authenticateToken (some ("Bearer " ++ jwtSign u.id u.username iat secret))
        secret now initialUsers
        = match initialUsers.find? (fun v => v.id == u.id) with
          | none => .reject 401 "User not found"
          | some v => .ok v := by
    intro hnow
    unfold authenticateToken
    simp only [extractToken_bearer (jwtSign_no_space u.id iat u.username secret)
      (jwtSign_ne_empty u.id iat u.username secret), jwtVerify_jwtSign]
    rw [if_pos ⟨trivial, hnow⟩]
  have hexp : ∀ _ : iat + tokenLifetime ≤ now,
      authenticateToken (some ("Bearer " ++ jwtSign u.id u.username iat secret))
        secret now initialUsers = .reject 403 "Invalid or expired token" := by
    intro hl
    unfold authenticateToken
    simp only [extractToken_bearer (jwtSign_no_space u.id iat u.username secret)
      (jwtSign_ne_empty u.id iat u.username secret), jwtVerify_jwtSign]
    rw [if_neg (fun hc => absurd hc.2 (by omega))]
  rcases List.mem_pair.1 (by simpa [initialUsers] using hu) with h | h <;> subst h
  · exact ⟨by simp [login, initialUsers, truthyOpt, truthy],
      fun hnow => by rw [hok hnow]; simp [initialUsers], hexp⟩
  · exact ⟨by simp [login, initialUsers, truthyOpt, truthy],
      fun hnow => by rw [hok hnow]; simp [initialUsers], hexp⟩

/-- Witness for C1: alice logs in, her token is accepted one second
before expiry and rejected at expiry. -/
theorem C1_login_roundtrip_witness :
    (login initialUsers ⟨some (.vstr "alice"), some (.vstr "123")⟩ 0 "s"
        = ⟨200, .token (jwtSign 2 "alice" 0 "s")⟩)
    ∧ authenticateToken (some ("Bearer " ++ jwtSign 2 "alice" 0 "s")) "s" 86399
        initialUsers = .ok ⟨2, "alice", "123", []⟩
    ∧ authenticateToken (some ("Bearer " ++ jwtSign 2 "alice" 0 "s")) "s" 86400
        initialUsers = .reject 403 "Invalid or expired token" :=
  ⟨(C1_login_roundtrip ⟨2, "alice", "123", []⟩ (by decide) 0 86399 "s").1,
    (C1_login_roundtrip ⟨2, "alice", "123", []⟩ (by decide) 0 86399 "s").2.1
      (by decide),
    (C1_login_roundtrip ⟨2, "alice", "123", []⟩ (by decide) 0 86400 "s").2.2
      (by decide)⟩

/-- Witness for C7: deleting id 5 from a one-movie collection, and
deleting the absent id 6. -/
theorem C7_delete_witness :
    ((∃ m ∈ [(⟨5, .vstr "t", .vstr "l", .vbool false⟩ : Movie)], matchesId (some 5) m) →
      deleteMovieH (some 5) [⟨5, .vstr "t", .vstr "l", .vbool false⟩]
          = (⟨204, .empty⟩,
            [(⟨5, .vstr "t", .vstr "l", .vbool false⟩ : Movie)].filter
              (fun m => !matchesId (some 5) m))
      ∧ getMovieH (some 5)
          (deleteMovieH (some 5) [⟨5, .vstr "t", .vstr "l", .vbool false⟩]).2
        = ⟨404, .msg "Movie not found"⟩)
    ∧ deleteMovieH (some 6) [⟨5, .vstr "t", .vstr "l", .vbool false⟩]
        = (⟨404, .msg "Movie not found"⟩, [⟨5, .vstr "t", .vstr "l", .vbool false⟩]) :=
  ⟨(C7_delete (some 5) [⟨5, .vstr "t", .vstr "l", .vbool false⟩]).1,
    (C7_delete (some 6) [⟨5, .vstr "t", .vstr "l", .vbool false⟩]).2 (by decide)⟩

/-! ## State-transition equations and frame lemmas -/

theorem applyOp_list (uid : Nat) (s : Option String) (db : DB) :
    applyOp uid (.list s) db = db := rfl

theorem applyOp_get (uid : Nat) (pid : Option Int) (db : DB) :
    applyOp uid (.get pid) db = db := rfl

theorem applyOp_create (uid : Nat) (body : MovieBody) (now rand : Nat) (db : DB) :
    applyOp uid (.create body now rand) db
      = setMovies uid (postMoviesH body now rand (moviesOf uid db)).2 db := by
  cases he : postMoviesH body now rand (moviesOf uid db) with
  | mk r ms2 => simp only [applyOp, runOp, he]

theorem applyOp_put (uid : Nat) (pid : Option Int) (body : MovieBody) (db : DB) :
    applyOp uid (.put pid body) db
      = setMovies uid (putMovieH pid body (moviesOf uid db)).2 db := by
  cases he : putMovieH pid body (moviesOf uid db) with
  | mk r ms2 => simp only [applyOp, runOp, he]

theorem applyOp_patch (uid : Nat) (pid : Option Int) (body : MovieBody) (db : DB) :
    applyOp uid (.patch pid body) db
      = setMovies uid (patchMovieH pid body (moviesOf uid db)).2 db := by
  cases he : patchMovieH pid body (moviesOf uid db) with
  | mk r ms2 => simp only [applyOp, runOp, he]

theorem applyOp_delete (uid : Nat) (pid : Option Int) (db : DB) :
    applyOp uid (.delete pid) db
      = setMovies uid (deleteMovieH pid (moviesOf uid db)).2 db := by
  cases he : deleteMovieH pid (moviesOf uid db) with
  | mk r ms2 => simp only [applyOp, runOp, he]

theorem find?_setMovies_ne {uid B : Nat} (h : uid ≠ B) (ms : List Movie) (db : DB) :
    (setMovies uid ms db).find? (fun u => u.id == B)
      = db.find? (fun u => u.id == B) := by
  induction db with
  | nil => rfl
  | cons u us ih =>
    by_cases hu : u.id = uid
    · have hbe : (u.id == uid) = true := by simp [hu]
      have hB : ¬ ((u.id == B) = true) := by
        simp [hu]
        exact h
      simp only [setMovies, if_pos hbe]
      rw [List.find?_cons_of_neg (p := fun v : User => v.id == B) us (by simpa using hB),
        List.find?_cons_of_neg (p := fun v : User => v.id == B) us hB]
    · have hbe : ¬ ((u.id == uid) = true) := by simp [hu]
      simp only [setMovies, if_neg hbe]
      by_cases hB : u.id = B
      · rw [List.find?_cons_of_pos (p := fun v : User => v.id == B) _ (by simp [hB]),
          List.find?_cons_of_pos (p := fun v : User => v.id == B) _ (by simp [hB])]
      · rw [List.find?_cons_of_neg (p := fun v : User => v.id == B) _ (by simp [hB]),
          List.find?_cons_of_neg (p := fun v : User => v.id == B) _ (by simp [hB])]
        exact ih

theorem moviesOf_setMovies_ne {uid B : Nat} (h : uid ≠ B) (ms : List Movie) (db : DB) :
    moviesOf B (setMovies uid ms db) = moviesOf B db := by
  unfold moviesOf
  rw [find?_setMovies_ne h]

theorem moviesOf_applyOp_ne {uid B : Nat} (h : uid ≠ B) (op : Op) (db : DB) :
    moviesOf B (applyOp uid op db) = moviesOf B db := by
  cases op with
  | list s => rw [applyOp_list]
  | get pid => rw [applyOp_get]
  | create body now rand => rw [applyOp_create, moviesOf_setMovies_ne h]
  | put pid body => rw [applyOp_put, moviesOf_setMovies_ne h]
  | patch pid body => rw [applyOp_patch, moviesOf_setMovies_ne h]
  | delete pid => rw [applyOp_delete, moviesOf_setMovies_ne h]

theorem moviesOf_applyOps_ne {B : Nat} :
    ∀ (ops : List (Nat × Op)) (db : DB), (∀ p ∈ ops, p.1 ≠ B) →
      moviesOf B (applyOps ops db) = moviesOf B db := by
  intro ops
  induction ops with
  | nil => intro db _; rfl
  | cons p rest ih =>
    intro db hops
    obtain ⟨uid, op⟩ := p
    rw [applyOps, ih _ fun q hq => hops q (List.mem_cons_of_mem _ hq),
      moviesOf_applyOp_ne (hops (uid, op) (List.mem_cons_self _ _))]

theorem getMoviesH_sublist (status : Option String) (ms : List Movie) :
    ∃ l, getMoviesH status ms = ⟨200, .movies l⟩ ∧ l.Sublist ms := by
  by_cases h1 : status = some "watched"
  · exact ⟨ms.filter (fun m => m.watched == JSValue.vbool true),
      by simp [getMoviesH, h1], List.filter_sublist ms⟩
  · by_cases h2 : status = some "unwatched"
    · exact ⟨ms.filter (fun m => m.watched == JSValue.vbool false),
        by simp [getMoviesH, h1, h2], List.filter_sublist ms⟩
    · exact ⟨ms, by simp [getMoviesH, h1, h2], List.Sublist.refl ms⟩

theorem getMovieH_mem {pid : Option Int} {ms : List Movie} {m : Movie}
    (h : getMovieH pid ms = ⟨200, .movie m⟩) : m ∈ ms := by
  unfold getMovieH at h
  cases hf : ms.find? (matchesId pid) with
  | none => rw [hf] at h; simp at h
  | some m' =>
    rw [hf] at h
    have : m' = m := by simpa using h
    exact this ▸ List.mem_of_find?_eq_some hf

/-- C3: user isolation.  A sequence of requests all authenticated as
users other than `B` leaves `B`'s movie sequence untouched; `B`'s reads
only ever return movies drawn from `B`'s own sequence; hence a movie a
request of another user `A` put into `A`'s collection, which is not in
`B`'s collection, never appears in `B`'s `GET /movies` results, and
`GET /movies/:id` as `B` with that movie's numeric id answers 404 as
long as no movie of `B`'s own carries the id. -/
theorem C3_user_isolation :
    (∀ (B : Nat) (ops : List (Nat × Op)) (db : DB),
      (∀ p ∈ ops, p.1 ≠ B) → moviesOf B (applyOps ops db) = moviesOf B db)
    ∧ (∀ (status : Option String) (ms : List Movie),
        ∃ l, getMoviesH status ms = ⟨200, .movies l⟩ ∧ l.Sublist ms)
    ∧ (∀ (pid : Option Int) (ms : List Movie) (m : Movie),
        getMovieH pid ms = ⟨200, .movie m⟩ → m ∈ ms)
    ∧ (∀ (A B : Nat) (op0 : Op) (ops : List (Nat × Op)) (db : DB) (nm : Movie),
        A ≠ B → (∀ p ∈ ops, p.1 ≠ B) → nm ∉ moviesOf B db →
        (∀ status l,
          getMoviesH status (moviesOf B (applyOps ops (applyOp A op0 db)))
            = ⟨200, .movies l⟩ → nm ∉ l)
        ∧ (nm.id ∉ (moviesOf B db).map Movie.id →
            getMovieH (some (nm.id : Int)) (moviesOf B (applyOps ops (applyOp A op0 db)))
              = ⟨404, .msg "Movie not found"⟩)) := by
  refine ⟨fun B ops db h => moviesOf_applyOps_ne ops db h,
    getMoviesH_sublist, fun _ _ _ h => getMovieH_mem h, ?_⟩
  intro A B op0 ops db nm hAB hops hnot
  have hmB : moviesOf B (applyOps ops (applyOp A op0 db)) = moviesOf B db := by
    rw [moviesOf_applyOps_ne ops _ hops, moviesOf_applyOp_ne hAB]
  constructor
  · intro status l hl
    obtain ⟨l', hl', hsub⟩ := getMoviesH_sublist status (moviesOf B db)
    rw [hmB] at hl
    have : l' = l := by
      rw [hl] at hl'
      simpa using hl'.symm
    intro hmem
    exact hnot (hsub.subset (this ▸ hmem))
  · intro hid
    rw [hmB]
    unfold getMovieH
    have hfind : (moviesOf B db).find? (matchesId (some (nm.id : Int))) = none := by
      rw [List.find?_eq_none]
      intro x hx hmatch
      apply hid
      have h1 : (nm.id : Int) = (x.id : Int) := by simpa [matchesId] using hmatch
      have h2 : nm.id = x.id := by exact_mod_cast h1
      exact h2 ▸ List.mem_map_of_mem Movie.id hx
    rw [hfind]

/-- Witness for C3: user 1 creates a movie; user 2's list stays empty,
and user 2 cannot read the created movie by its id. -/
theorem C3_user_isolation_witness :
    moviesOf 2 (applyOps
        [(1, Op.create ⟨some (.vstr "Inception"), some (.vstr "English"), none⟩ 100 7)]
        initialUsers)
      = moviesOf 2 initialUsers
    ∧ ((∀ status l,
        getMoviesH status (moviesOf 2 (applyOps []
            (applyOp 1 (Op.create ⟨some (.vstr "Inception"), some (.vstr "English"), none⟩
              100 7) initialUsers)))
          = ⟨200, .movies l⟩
          → (⟨107, .vstr "Inception", .vstr "English", .vbool false⟩ : Movie) ∉ l)
      ∧ ((107 : Nat) ∉ (moviesOf 2 initialUsers).map Movie.id →
          getMovieH (some ((107 : Nat) : Int)) (moviesOf 2 (applyOps []
              (applyOp 1 (Op.create ⟨some (.vstr "Inception"), some (.vstr "English"), none⟩
                100 7) initialUsers)))
            = ⟨404, .msg "Movie not found"⟩)) :=
  ⟨C3_user_isolation.1 2
      [(1, Op.create ⟨some (.vstr "Inception"), some (.vstr "English"), none⟩ 100 7)]
      initialUsers (by decide),
    C3_user_isolation.2.2.2 1 2
      (Op.create ⟨some (.vstr "Inception"), some (.vstr "English"), none⟩ 100 7) []
      initialUsers ⟨107, .vstr "Inception", .vstr "English", .vbool false⟩
      (by decide) (by decide) (by decide)⟩

/-! ## Per-user invariant machinery -/

theorem setMovies_pres {P : List Movie → Prop} {uid : Nat} {ms : List Movie} :
    ∀ {db : DB}, (∀ u ∈ db, P u.movies) → P ms →
      ∀ u ∈ setMovies uid ms db, P u.movies := by
  intro db
  induction db with
  | nil =>
    intro _ _ u hu
    exact absurd hu (List.not_mem_nil u)
  | cons v vs ih =>
    intro hdb hms u hu
    unfold setMovies at hu
    by_cases hv : (v.id == uid) = true
    · rw [if_pos hv] at hu
      rcases List.mem_cons.1 hu with h | h
      · rw [h]
        exact hms
      · exact hdb u (List.mem_cons_of_mem v h)
    · rw [if_neg hv] at hu
      rcases List.mem_cons.1 hu with h | h
      · rw [h]
        exact hdb v (List.mem_cons_self v vs)
      · exact ih (fun w hw => hdb w (List.mem_cons_of_mem v hw)) hms u h

theorem moviesOf_pres {P : List Movie → Prop} {db : DB} (hdb : ∀ u ∈ db, P u.movies)
    (hnil : P []) (uid : Nat) : P (moviesOf uid db) := by
  unfold moviesOf
  cases hf : db.find? (fun u => u.id == uid) with
  | none => exact hnil
  | some u => exact hdb u (List.mem_of_find?_eq_some hf)

theorem mem_updateFirst {p : Movie → Bool} {f : Movie → Movie} :
    ∀ {ms : List Movie} {y : Movie}, y ∈ updateFirst p f ms →
      y ∈ ms ∨ ∃ x ∈ ms, y = f x := by
  intro ms
  induction ms with
  | nil =>
    intro y h
    exact absurd h (List.not_mem_nil y)
  | cons a as ih =>
    intro y h
    unfold updateFirst at h
    by_cases ha : p a
    · rw [if_pos ha] at h
      rcases List.mem_cons.1 h with h | h
      · exact Or.inr ⟨a, List.mem_cons_self a as, h⟩
      · exact Or.inl (List.mem_cons_of_mem a h)
    · rw [if_neg ha] at h
      rcases List.mem_cons.1 h with h | h
      · exact Or.inl (h ▸ List.mem_cons_self a as)
      · rcases ih h with h' | ⟨x, hx, he⟩
        · exact Or.inl (List.mem_cons_of_mem a h')
        · exact Or.inr ⟨x, List.mem_cons_of_mem a hx, he⟩

theorem watched_postMoviesH {body : MovieBody} {now rand : Nat} {ms : List Movie} :
    ∀ m ∈ (postMoviesH body now rand ms).2,
      m ∈ ms ∨ m.watched = JSValue.vbool (truthyOpt body.watched) := by
  intro m hm
  unfold postMoviesH at hm
  by_cases hval : (!truthyOpt body.movietitle || !truthyOpt body.language) = true
  · rw [if_pos hval] at hm
    exact Or.inl hm
  · rw [if_neg hval] at hm
    cases hmt : body.movietitle with
    | none => rw [hmt] at hm; exact Or.inl hm
    | some mt =>
      cases hlang : body.language with
      | none => rw [hmt, hlang] at hm; exact Or.inl hm
      | some lang =>
        rw [hmt, hlang] at hm
        rcases List.mem_append.1 hm with h | h
        · exact Or.inl h
        · refine Or.inr ?_
          rw [List.mem_singleton] at h
          rw [h]
          cases hw : body.watched with
          | none => simp [truthyOpt, hw]
          | some w => simp [truthyOpt, hw]

theorem watchedInv_setMovies {uid : Nat} {ms : List Movie} {db : DB}
    (hdb : watchedInv db) (hms : ∀ m ∈ ms, ∃ b, m.watched = JSValue.vbool b) :
    watchedInv (setMovies uid ms db) :=
  setMovies_pres (P := fun l => ∀ m ∈ l, ∃ b, m.watched = JSValue.vbool b) hdb hms

theorem watchedInv_applyOp {uid : Nat} {op : Op} {db : DB} (hdb : watchedInv db) :
    watchedInv (applyOp uid op db) := by
  have hmov : ∀ m ∈ moviesOf uid db, ∃ b, m.watched = JSValue.vbool b :=
    moviesOf_pres (P := fun ms => ∀ m ∈ ms, ∃ b, m.watched = JSValue.vbool b) hdb
      (fun m hm => absurd hm (List.not_mem_nil m)) uid
  cases op with
  | list s => rw [applyOp_list]; exact hdb
  | get pid => rw [applyOp_get]; exact hdb
  | create body now rand =>
    rw [applyOp_create]
    refine watchedInv_setMovies hdb ?_
    intro m hm
    rcases watched_postMoviesH m hm with h | h
    · exact hmov m h
    · exact ⟨_, h⟩
  | put pid body =>
    rw [applyOp_put]
    refine watchedInv_setMovies hdb ?_
    intro m hm
    unfold putMovieH at hm
    cases hf : (moviesOf uid db).find? (matchesId pid) with
    | none =>
      rw [hf] at hm
      exact hmov m hm
    | some mv =>
      rw [hf] at hm
      cases hmt : body.movietitle with
      | none => rw [hmt] at hm; exact hmov m hm
      | some mt =>
        cases hlang : body.language with
        | none => rw [hmt, hlang] at hm; exact hmov m hm
        | some lang =>
          cases hw : body.watched with
          | none => rw [hmt, hlang, hw] at hm; exact hmov m hm
          | some w =>
            rw [hmt, hlang, hw] at hm
            rcases mem_updateFirst hm with h | ⟨x, _, he⟩
            · exact hmov m h
            · exact ⟨truthy w, by rw [he]; rfl⟩
  | patch pid body =>
    rw [applyOp_patch]
    refine watchedInv_setMovies hdb ?_
    intro m hm
    unfold patchMovieH at hm
    cases hf : (moviesOf uid db).find? (matchesId pid) with
    | none =>
      rw [hf] at hm
      exact hmov m hm
    | some mv =>
      rw [hf] at hm
      rcases mem_updateFirst hm with h | ⟨x, hx, he⟩
      · exact hmov m h
      · cases hw : body.watched with
        | none =>
          obtain ⟨b, hb⟩ := hmov x hx
          refine ⟨b, ?_⟩
          rw [he]
          simp [patchFields, hw, hb]
        | some w =>
          refine ⟨truthy w, ?_⟩
          rw [he]
          simp [patchFields, hw]
  | delete pid =>
    rw [applyOp_delete]
    refine watchedInv_setMovies hdb ?_
    intro m hm
    unfold deleteMovieH at hm
    by_cases hlen : (moviesOf uid db).length
        = ((moviesOf uid db).filter (fun m => !matchesId pid m)).length
    · rw [if_pos hlen] at hm
      exact hmov m ((List.mem_filter.1 hm).1)
    · rw [if_neg hlen] at hm
      exact hmov m ((List.mem_filter.1 hm).1)

theorem watchedInv_applyOps : ∀ (ops : List (Nat × Op)) (db : DB),
    watchedInv db → watchedInv (applyOps ops db) := by
  intro ops
  induction ops with
  | nil => intro db h; exact h
  | cons p rest ih =>
    intro db h
    obtain ⟨uid, op⟩ := p
    rw [applyOps]
    exact ih _ (watchedInv_applyOp h)

/-- C9: the `watched` field of every stored movie is a boolean after any
sequence of requests from the initial state — `POST` stores `false` when
`watched` is absent from the body and otherwise coerces the supplied
value with `!!`, and `PUT` and `PATCH` likewise coerce any supplied
`watched` value with `!!` (an absent `PATCH` field keeps the old value). -/
theorem C9_watched_boolean :
    watchedInv initialUsers
    ∧ (∀ (ops : List (Nat × Op)) (db : DB), watchedInv db →
        watchedInv (applyOps ops db))
    ∧ (∀ (body : MovieBody) (now rand : Nat) (ms : List Movie),
        ∀ m ∈ (postMoviesH body now rand ms).2,
          m ∈ ms ∨ m.watched = JSValue.vbool (truthyOpt body.watched))
    ∧ (∀ (body : MovieBody), body.watched = none → truthyOpt body.watched = false)
    ∧ (∀ (mt lang w : JSValue) (m : Movie),
        (putFields mt lang w m).watched = JSValue.vbool (truthy w))
    ∧ (∀ (body : MovieBody) (m : Movie) (v : JSValue), body.watched = some v →
        (patchFields body m).watched = JSValue.vbool (truthy v))
    ∧ (∀ (body : MovieBody) (m : Movie), body.watched = none →
        (patchFields body m).watched = m.watched) := by
  refine ⟨?_, watchedInv_applyOps, fun _ _ _ _ => watched_postMoviesH,
    ?_, fun mt lang w m => rfl, ?_, ?_⟩
  · intro u hu m hm
    rcases List.mem_pair.1 (by simpa [initialUsers] using hu) with h | h <;>
      rw [h] at hm <;> exact absurd hm (List.not_mem_nil m)
  · intro body h
    simp [truthyOpt, h]
  · intro body m v h
    simp [patchFields, h]
  · intro body m h
    simp [patchFields, h]

/-- Witness for C9: running a create, a put, a patch and a delete from
the initial state keeps every `watched` field boolean. -/
theorem C9_watched_boolean_witness :
    watchedInv (applyOps
      [(1, Op.create ⟨some (.vstr "Inception"), some (.vstr "English"), none⟩ 100 7),
        (1, Op.put (some 107)
          ⟨some (.vstr "Inception"), some (.vstr "English"), some (.vnum 1)⟩),
        (1, Op.patch (some 107) ⟨none, none, some .vnull⟩),
        (2, Op.delete (some 107))] initialUsers)
    ∧ (patchFields ⟨none, none, some (.vstr "yes")⟩
        ⟨1, .vstr "t", .vstr "l", .vbool false⟩).watched = JSValue.vbool true :=
  ⟨C9_watched_boolean.2.1 _ initialUsers C9_watched_boolean.1,
    C9_watched_boolean.2.2.2.2.2.1 ⟨none, none, some (.vstr "yes")⟩
      ⟨1, .vstr "t", .vstr "l", .vbool false⟩ (.vstr "yes") rfl⟩

/-! ## Id-uniqueness machinery -/

theorem map_id_updateFirst {p : Movie → Bool} {f : Movie → Movie}
    (hf : ∀ m, (f m).id = m.id) :
    ∀ ms : List Movie, (updateFirst p f ms).map Movie.id = ms.map Movie.id := by
  intro ms
  induction ms with
  | nil => rfl
  | cons a as ih =>
    unfold updateFirst
    by_cases ha : p a
    · rw [if_pos ha]
      simp [hf a]
    · rw [if_neg ha]
      simp only [List.map_cons, ih]

theorem map_id_postMoviesH (body : MovieBody) (now rand : Nat) (ms : List Movie) :
    (postMoviesH body now rand ms).2 = ms
    ∨ (postMoviesH body now rand ms).2.map Movie.id
        = ms.map Movie.id ++ [generateId now rand] := by
  unfold postMoviesH
  by_cases hval : (!truthyOpt body.movietitle || !truthyOpt body.language) = true
  · rw [if_pos hval]
    exact Or.inl rfl
  · rw [if_neg hval]
    cases hmt : body.movietitle with
    | none => exact Or.inl rfl
    | some mt =>
      cases hlang : body.language with
      | none => exact Or.inl rfl
      | some lang => exact Or.inr (by simp)

theorem map_id_putMovieH (pid : Option Int) (body : MovieBody) (ms : List Movie) :
    (putMovieH pid body ms).2.map Movie.id = ms.map Movie.id := by
  unfold putMovieH
  cases hf : ms.find? (matchesId pid) with
  | none => rfl
  | some mv =>
    cases hmt : body.movietitle with
    | none => rfl
    | some mt =>
      cases hlang : body.language with
      | none => rfl
      | some lang =>
        cases hw : body.watched with
        | none => rfl
        | some w => exact map_id_updateFirst (f := putFields mt lang w) (fun m => rfl) ms

theorem map_id_patchMovieH (pid : Option Int) (body : MovieBody) (ms : List Movie) :
    (patchMovieH pid body ms).2.map Movie.id = ms.map Movie.id := by
  unfold patchMovieH
  cases hf : ms.find? (matchesId pid) with
  | none => rfl
  | some mv => exact map_id_updateFirst (f := patchFields body) (fun m => rfl) ms

theorem deleteMovieH_snd (pid : Option Int) (ms : List Movie) :
    (deleteMovieH pid ms).2 = ms.filter (fun m => !matchesId pid m) := by
  unfold deleteMovieH
  by_cases h : ms.length = (ms.filter (fun m => !matchesId pid m)).length
  · rw [if_pos h]
  · rw [if_neg h]

theorem idsNodupInv_setMovies {uid : Nat} {ms : List Movie} {db : DB}
    (hdb : idsNodupInv db) (hms : (ms.map Movie.id).Nodup) :
    idsNodupInv (setMovies uid ms db) :=
  setMovies_pres (P := fun l => (l.map Movie.id).Nodup) hdb hms

/-- C4 as stated is false: `generateId` never consults the ids already
in the collection, so a create can duplicate an existing id.  With the
clock at 100 and random draw 7 twice in a row (the clock need not
advance between requests and the draw can repeat), two identical POSTs
both store id 107 and the collection's ids are no longer pairwise
distinct. -/
theorem C4_counterexample :
    ((postMoviesH ⟨some (.vstr "Inception"), some (.vstr "English"), none⟩ 100 7
        ((postMoviesH ⟨some (.vstr "Inception"), some (.vstr "English"), none⟩ 100 7
          []).2)).2.map Movie.id) = [107, 107]
    ∧ ¬ ((postMoviesH ⟨some (.vstr "Inception"), some (.vstr "English"), none⟩ 100 7
        ((postMoviesH ⟨some (.vstr "Inception"), some (.vstr "English"), none⟩ 100 7
          []).2)).2.map Movie.id).Nodup := by
  decide

/-- C4, amended: ids stay pairwise distinct within every user's
collection under every operation, provided each create's generated id
`Date.now() + rand` differs from every id already in that collection —
the generator itself does not guarantee this, so two successive
identical POSTs yield distinct ids exactly when their generated values
differ. -/
theorem C4_ids_nodup :
    idsNodupInv initialUsers
    ∧ (∀ (uid : Nat) (op : Op) (db : DB), idsNodupInv db →
        (∀ (body : MovieBody) (now rand : Nat), op = Op.create body now rand →
          generateId now rand ∉ (moviesOf uid db).map Movie.id) →
        idsNodupInv (applyOp uid op db)) := by
  constructor
  · intro u hu
    rcases List.mem_pair.1 (by simpa [initialUsers] using hu) with h | h <;>
      rw [h] <;> exact List.nodup_nil
  · intro uid op db hdb hfresh
    have hnodup : ((moviesOf uid db).map Movie.id).Nodup :=
      moviesOf_pres (P := fun l => (l.map Movie.id).Nodup) hdb (by simp) uid
    cases op with
    | list s => rw [applyOp_list]; exact hdb
    | get pid => rw [applyOp_get]; exact hdb
    | create body now rand =>
      rw [applyOp_create]
      refine idsNodupInv_setMovies hdb ?_
      rcases map_id_postMoviesH body now rand (moviesOf uid db) with h | h
      · rw [h]
        exact hnodup
      · rw [h, List.nodup_append]
        refine ⟨hnodup, List.nodup_singleton _, ?_⟩
        intro a ha hb
        rw [List.mem_singleton] at hb
        exact (hfresh body now rand rfl) (hb ▸ ha)
    | put pid body =>
      rw [applyOp_put]
      refine idsNodupInv_setMovies hdb ?_
      rw [map_id_putMovieH]
      exact hnodup
    | patch pid body =>
      rw [applyOp_patch]
      refine idsNodupInv_setMovies hdb ?_
      rw [map_id_patchMovieH]
      exact hnodup
    | delete pid =>
      rw [applyOp_delete]
      refine idsNodupInv_setMovies hdb ?_
      rw [deleteMovieH_snd]
      exact ((List.filter_sublist _).map Movie.id).nodup hnodup

/-- Witness for the amended C4: a create whose generated id 107 is fresh
for user 1's empty collection keeps the id-uniqueness invariant. -/
theorem C4_ids_nodup_witness :
    idsNodupInv (applyOp 1
      (Op.create ⟨some (.vstr "Inception"), some (.vstr "English"), none⟩ 100 7)
      initialUsers) :=
  C4_ids_nodup.2 1
    (Op.create ⟨some (.vstr "Inception"), some (.vstr "English"), none⟩ 100 7)
    initialUsers C4_ids_nodup.1
    (by
      intro body now rand he
      injection he with h1 h2 h3
      subst h1
      subst h2
      subst h3
      decide)

end Watchlist
